import Mathlib

/-!
Shallow embedding of the access-controlled file lifecycle of
`src/routes/files.js` (an Express + Prisma file-uploader).

The metadata store is modelled as an in-memory `Store` holding the `File`
and `Folder` records; each route handler becomes a pure function from the
store (plus the request data the handler reads) to a structured outcome and
the successor store.  Prisma calls are modelled as follows:

* `prisma.file.findFirst { where }`    -> `List.find?` with the embedded
  `where` predicate;
* `prisma.file.findMany { where, orderBy }` -> `List.filter` followed by a
  sort on the `orderBy` key;
* `prisma.file.create` -> append a record (the store assigns the id and
  timestamp; they are parameters here);
* `prisma.file.update { where: id }` / `prisma.file.delete { where: id }`
  -> pointwise map / removal of the records with that id.

One Prisma semantic detail is load-bearing: Prisma Client distinguishes
`null` from `undefined` in filters, and a filter whose value is `undefined`
is dropped ("do nothing" semantics, per the documented null-vs-undefined
behaviour of Prisma where-clauses).  The routes `GET /files/:id` and
`GET /files/:id/download` filter with
`OR: [ { userId: req.user?.id }, { isPublic: true } ]`; for an anonymous
request `req.user?.id` is `undefined`, the `userId` condition is dropped,
and the first OR branch degenerates to the empty condition, which matches
every record.  This is embedded faithfully in `userIdFilter`.

Principals are `Option Nat`: `some uid` an authenticated user, `none` an
anonymous request.  Routes guarded by `ensureAuthenticated` only run with a
user present, so their embeddings take a bare `uid : Nat`.
-/

/-- A row of the `File` table as created and read by `src/routes/files.js`. -/
structure File where
  id : Nat
  filename : String
  originalName : String
  mimeType : String
  size : Nat
  path : String
  description : Option String
  isPublic : Bool
  userId : Nat
  folderId : Option Nat
  uploadedAt : Nat
deriving Repr, DecidableEq

/-- A row of the `Folder` table, as read by the folder lookups in
`src/routes/files.js` (folder creation itself lives outside these routes). -/
structure Folder where
  id : Nat
  name : String
  userId : Nat
  parentId : Option Nat
deriving Repr, DecidableEq

/-- The metadata store: the `File` and `Folder` tables. -/
structure Store where
  files : List File
  folders : List Folder
deriving Repr, DecidableEq

/-- The `userId` disjunct of the `OR` filter used by `GET /files/:id` and
`GET /files/:id/download` (src/routes/files.js:128 and 162), namely
`OR: [ { userId: req.user?.id }, { isPublic: true } ]`.
For an authenticated user this is an equality test on `userId`.  For an
anonymous request `req.user?.id` evaluates to `undefined`, and Prisma drops
a filter whose value is `undefined`, leaving an empty condition that
matches every record — hence `true` in the `none` case. -/
def userIdFilter (user : Option Nat) (f : File) : Bool :=
  match user with
  | none => true
  | some u => f.userId == u

/-- The full `where` clause of the lookups in `GET /files/:id` and
`GET /files/:id/download`:
`{ id: Number(req.params.id), OR: [ { userId: req.user?.id }, { isPublic: true } ] }`. -/
def fileWhere (user : Option Nat) (id : Nat) (f : File) : Bool :=
  f.id == id && (userIdFilter user f || f.isPublic)

/-- The owner-scoped lookup used by `DELETE /files/:id` (line 141) and
`POST /files/:id/assign-folder` (line 186):
`{ id: Number(req.params.id), userId: req.user.id }`. -/
def ownedFileWhere (uid : Nat) (id : Nat) (f : File) : Bool :=
  f.id == id && f.userId == uid

/-- The owner-scoped folder lookup used by the upload and assign-folder
handlers: `{ id: folderId, userId: req.user.id }`. -/
def ownedFolderWhere (uid : Nat) (fid : Nat) (g : Folder) : Bool :=
  g.id == fid && g.userId == uid

/-- Sort files most-recently-uploaded first, the embedding of
`orderBy: { uploadedAt: "desc" }`. -/
def sortByUploadedAtDesc (l : List File) : List File :=
  List.insertionSort (fun a b => b.uploadedAt ≤ a.uploadedAt) l

/-- Sort folders by name ascending, the embedding of
`orderBy: { name: "asc" }` on the folder table. -/
def sortFoldersByName (l : List Folder) : List Folder :=
  List.insertionSort (fun a b => a.name ≤ b.name) l

/-- `GET /files/public` (lines 36-51): all files with `isPublic: true`,
ordered by `uploadedAt` descending.  No pagination. -/
def listPublicFiles (s : Store) : List File :=
  sortByUploadedAtDesc (s.files.filter (fun f => f.isPublic))

/-- `GET /files` (lines 54-66, authenticated): the requesting user's files,
ordered by `uploadedAt` descending.  No pagination. -/
def listOwnedFiles (s : Store) (uid : Nat) : List File :=
  sortByUploadedAtDesc (s.files.filter (fun f => f.userId == uid))

/-- Outcome of `GET /files/:id` (the info page): either the 404 page or the
rendered info view with the file, the owner's folder list (owners only) and
the `canEdit` flag. -/
inductive ReadRes where
  | notFound
  | info (f : File) (folders : List Folder) (canEdit : Bool)
deriving Repr, DecidableEq

/-- `GET /files/:id` (lines 159-180).  Looks the file up with `fileWhere`;
on a miss renders 404.  On a hit, an owner additionally gets their folder
list (name-ascending) and `canEdit = true`; everyone else gets an empty
folder list and `canEdit = false`. -/
def readFile (s : Store) (user : Option Nat) (id : Nat) : ReadRes :=
  match s.files.find? (fileWhere user id) with
  | none => .notFound
  | some f =>
    match user with
    | some u =>
      if f.userId == u then
        .info f (sortFoldersByName (s.folders.filter (fun g => g.userId == u))) true
      else
        .info f [] false
    | none => .info f [] false

/-- Outcome of `GET /files/:id/download`: 404 or `res.download(path, name)`. -/
inductive DownloadRes where
  | notFound
  | download (path : String) (originalName : String)
deriving Repr, DecidableEq

/-- `GET /files/:id/download` (lines 125-136).  Same `fileWhere` lookup as
the info page; on a hit streams `file.path` under `file.originalName`. -/
def downloadFile (s : Store) (user : Option Nat) (id : Nat) : DownloadRes :=
  match s.files.find? (fileWhere user id) with
  | none => .notFound
  | some f => .download f.path f.originalName

/-- Outcome of `DELETE /files/:id`: the 404 JSON error or `success: true`. -/
inductive DeleteRes where
  | notFound
  | success
deriving Repr, DecidableEq

set_option linter.unusedVariables false in
/-- `DELETE /files/:id` (lines 139-156, authenticated).  The lookup is
scoped to the owner (`ownedFileWhere`), so a file owned by someone else is
indistinguishable from a missing one.  `fs.unlink(file.path)` is wrapped in
its own try/catch whose handler only logs, so the handler proceeds to
delete the metadata record and answer `success` whether or not the blob
removal failed; `unlinkFails` records that filesystem outcome and has no
effect on the result. -/
def deleteFile (s : Store) (uid : Nat) (id : Nat) (unlinkFails : Bool) :
    DeleteRes × Store :=
  match s.files.find? (ownedFileWhere uid id) with
  | none => (.notFound, s)
  | some f =>
    (.success, { s with files := s.files.filter (fun g => !(g.id == f.id)) })

/-- Outcome of `POST /files/:id/assign-folder`: "File not found",
"Selected folder not found", or the success redirect. -/
inductive AssignRes where
  | fileNotFound
  | folderNotFound
  | success
deriving Repr, DecidableEq

/-- `prisma.file.update { where: { id }, data: { folderId } }`: rewrite the
`folderId` of the records with the given id, all other fields unchanged. -/
def updateFolderId (s : Store) (id : Nat) (v : Option Nat) : Store :=
  { s with
    files := s.files.map (fun g => if g.id == id then { g with folderId := v } else g) }

/-- `POST /files/:id/assign-folder` (lines 183-210, authenticated).
Owner-scoped file lookup; a falsy `folderId` in the body clears the
assignment, a truthy one must resolve to a folder owned by the requester or
the handler flashes "Selected folder not found" and returns without
touching the record. -/
def assignFolder (s : Store) (uid : Nat) (id : Nat) (folderId : Option Nat) :
    AssignRes × Store :=
  match s.files.find? (ownedFileWhere uid id) with
  | none => (.fileNotFound, s)
  | some f =>
    match folderId with
    | none => (.success, updateFolderId s f.id none)
    | some fid =>
      match s.folders.find? (ownedFolderWhere uid fid) with
      | none => (.folderNotFound, s)
      | some _ => (.success, updateFolderId s f.id (some fid))

/-- The request data the upload handler reads after multer has stored the
blob: the `req.file` fields and the `req.body` fields. -/
structure UploadReq where
  filename : String
  originalname : String
  mimetype : String
  size : Nat
  path : String
  description : Option String
  isPublicField : Option String
  folderIdField : Option Nat
deriving Repr, DecidableEq

/-- JavaScript `x || null` on an optional string: the empty string (falsy)
and absence both become null. -/
def jsStringOrNull (v : Option String) : Option String :=
  match v with
  | some "" => none
  | v => v

/-- Folder resolution on the upload path (lines 95-99): a falsy
`req.body.folderId` stays null; a truthy one is looked up scoped to the
requester and silently falls back to null when not found. -/
def resolveUploadFolder (s : Store) (uid : Nat) (fid? : Option Nat) : Option Nat :=
  match fid? with
  | none => none
  | some fid =>
    match s.folders.find? (ownedFolderWhere uid fid) with
    | none => none
    | some _ => some fid

/-- `POST /files/upload` (lines 82-122, authenticated), after the
validation and `req.file` guards: resolves the folder with upload-path
semantics, then `prisma.file.create` with `isPublic: req.body.isPublic === "true"`,
`description: req.body.description || null`, `userId: req.user.id`.  The
store-assigned id and timestamp are the `newId` and `now` parameters.
Returns the successor store and the created record. -/
def uploadFile (s : Store) (uid : Nat) (newId : Nat) (now : Nat) (r : UploadReq) :
    Store × File :=
  let f : File :=
    { id := newId
      filename := r.filename
      originalName := r.originalname
      mimeType := r.mimetype
      size := r.size
      path := r.path
      description := jsStringOrNull r.description
      isPublic := r.isPublicField == some "true"
      userId := uid
      folderId := resolveUploadFolder s uid r.folderIdField
      uploadedAt := now }
  ({ s with files := s.files ++ [f] }, f)

/-- The visibility policy of spec §4.1, written from the spec's words (the
code keeps it implicit in its lookup filters): `canRead` holds when the
file is public or the principal is its authenticated owner. -/
def specCanRead (principal : Option Nat) (f : File) : Bool :=
  f.isPublic ||
    (match principal with
     | some u => u == f.userId
     | none => false)

/-- The mutation policy of spec §4.1, written from the spec's words:
only the authenticated owner may mutate. -/
def specCanMutate (principal : Option Nat) (f : File) : Bool :=
  match principal with
  | some u => u == f.userId
  | none => false

/-- Referential-integrity check for one file: a non-null `folderId` must
name a folder owned by the file's owner. -/
def folderOwnedOk (s : Store) (f : File) : Bool :=
  match f.folderId with
  | none => true
  | some fid => s.folders.any (fun g => g.id == fid && g.userId == f.userId)

/-- The cross-user folder-assignment invariant over the whole store. -/
def storeInv (s : Store) : Bool :=
  s.files.all (folderOwnedOk s)

/-! ## Helper lemmas about the list-backed store -/

/-- If `a` is a match and every match in `l` equals `a`, `find?` returns `a`. -/
theorem find_of_mem_of_unique {α : Type} {l : List α} {a : α} {p : α → Bool}
    (hmem : a ∈ l) (hpa : p a = true)
    (hall : ∀ b ∈ l, p b = true → b = a) :
    l.find? p = some a := by
  induction l with
  | nil => exact absurd hmem (List.not_mem_nil a)
  | cons x t ih =>
    by_cases hx : p x = true
    · have hxa : x = a := hall x (List.mem_cons_self x t) hx
      rw [List.find?_cons_of_pos _ hx, hxa]
    · have hat : a ∈ t := by
        rcases List.mem_cons.mp hmem with h | h
        · exact absurd (h ▸ hpa) hx
        · exact h
      have := ih hat (fun b hb hpb => hall b (List.mem_cons_of_mem x hb) hpb)
      rw [List.find?_cons_of_neg _ hx]
      exact this

/-- Under the same uniqueness hypothesis, `find?` is determined by whether
`a` itself matches. -/
theorem find_eq_of_unique {α : Type} {l : List α} {a : α} {p : α → Bool}
    (hmem : a ∈ l) (hall : ∀ b ∈ l, p b = true → b = a) :
    l.find? p = if p a = true then some a else none := by
  by_cases hpa : p a = true
  · rw [if_pos hpa]
    exact find_of_mem_of_unique hmem hpa hall
  · rw [if_neg hpa]
    exact List.find?_eq_none.mpr (fun b hb hpb => absurd (hall b hb hpb ▸ hpb) hpa)

/-! ## Concrete records used by witnesses and counterexamples -/

/-- A private file owned by user 1. -/
def wFile1 : File :=
  { id := 1
    filename := "1700-a.txt"
    originalName := "a.txt"
    mimeType := "text/plain"
    size := 3
    path := "uploads/1700-a.txt"
    description := none
    isPublic := false
    userId := 1
    folderId := none
    uploadedAt := 10 }

/-- A folder owned by user 2. -/
def wFolder5 : Folder :=
  { id := 5
    name := "docs"
    userId := 2
    parentId := none }

/-- A small store: one private file of user 1, one folder of user 2. -/
def wStore : Store :=
  { files := [wFile1], folders := [wFolder5] }

/-- An upload request that names no folder. -/
def wUploadReq : UploadReq :=
  { filename := "1701-b.txt"
    originalname := "b.txt"
    mimetype := "text/plain"
    size := 4
    path := "uploads/1701-b.txt"
    description := some ""
    isPublicField := some "True"
    folderIdField := none }

/-! ## Claims -/

/-- Claim C1 (code bug).  The claim says an anonymous principal can read or
download a file exactly when it is public, a private file being reported
NotFound.  In the code, `req.user?.id` is `undefined` for an anonymous
request and Prisma drops the `{ userId: undefined }` condition from the
`OR`, so the lookup matches on the id alone: with a single private file in
the store, the anonymous `GET /files/1` and `GET /files/1/download` both
succeed instead of answering NotFound. -/
theorem c1_anonymous_private_access :
    wFile1.isPublic = false
    ∧ readFile wStore none 1 = .info wFile1 [] false
    ∧ downloadFile wStore none 1 = .download wFile1.path wFile1.originalName :=
  ⟨rfl, rfl, rfl⟩

/-- Claim C2 (confirmed).  If the owner-scoped file lookup succeeds but the
requested folder id does not resolve to a folder owned by the requester,
`POST /files/:id/assign-folder` answers "Selected folder not found" and
returns the store unchanged: no field of any record is mutated. -/
theorem c2_reassign_invalid_folder (s : Store) (uid id fid : Nat)
    (hfile : (s.files.find? (ownedFileWhere uid id)).isSome = true)
    (hfolder : s.folders.find? (ownedFolderWhere uid fid) = none) :
    assignFolder s uid id (some fid) = (.folderNotFound, s) := by
  rcases Option.isSome_iff_exists.mp hfile with ⟨f, hf⟩
  simp [assignFolder, hf, hfolder]

/-- Witness for C2: user 1 owns file 1, folder 5 belongs to user 2, and the
reassignment of file 1 to folder 5 fails without mutating the store. -/
theorem c2_reassign_invalid_folder_witness :
    (wStore.files.find? (ownedFileWhere 1 1)).isSome = true
    ∧ wStore.folders.find? (ownedFolderWhere 1 5) = none
    ∧ assignFolder wStore 1 1 (some 5) = (.folderNotFound, wStore) :=
  ⟨by decide, by decide, c2_reassign_invalid_folder wStore 1 1 5 (by decide) (by decide)⟩

/-- Claim C5 (code bug).  The claim says a principal lacking the required
right on an existing file gets a response identical to the response for a
nonexistent id.  For the anonymous principal and a private file the spec's
read policy denies access, yet the code returns the info page, while a
nonexistent id yields NotFound: the two responses differ, so an existing
private file is distinguishable from a missing one. -/
theorem c5_unauthorized_distinguishable :
    specCanRead none wFile1 = false
    ∧ wFile1 ∈ wStore.files
    ∧ wFile1.id = 1
    ∧ readFile wStore none 1 ≠ ReadRes.notFound
    ∧ readFile wStore none 99 = ReadRes.notFound :=
  ⟨rfl, by decide, rfl, by decide, by decide⟩

/-- Claim C6 (confirmed).  On the upload path an unresolvable requested
folder id never fails the request: the file is still created (appended to
the table, folders untouched) with `folderId = null`. -/
theorem c6_upload_folder_fallback (s : Store) (uid newId now fid : Nat) (r : UploadReq)
    (hfolder : s.folders.find? (ownedFolderWhere uid fid) = none) :
    (uploadFile s uid newId now { r with folderIdField := some fid }).2.folderId = none
    ∧ (uploadFile s uid newId now { r with folderIdField := some fid }).1.files
        = s.files ++ [(uploadFile s uid newId now { r with folderIdField := some fid }).2]
    ∧ (uploadFile s uid newId now { r with folderIdField := some fid }).1.folders
        = s.folders := by
  refine ⟨?_, rfl, rfl⟩
  simp [uploadFile, resolveUploadFolder, hfolder]

/-- Witness for C6: user 1 uploads naming folder 5 (owned by user 2); the
upload succeeds and the created file is unfiled. -/
theorem c6_upload_folder_fallback_witness :
    wStore.folders.find? (ownedFolderWhere 1 5) = none
    ∧ (uploadFile wStore 1 2 11 { wUploadReq with folderIdField := some 5 }).2.folderId = none
    ∧ (uploadFile wStore 1 2 11 { wUploadReq with folderIdField := some 5 }).1.files
        = wStore.files ++ [(uploadFile wStore 1 2 11 { wUploadReq with folderIdField := some 5 }).2]
    ∧ (uploadFile wStore 1 2 11 { wUploadReq with folderIdField := some 5 }).1.folders
        = wStore.folders :=
  ⟨by decide, c6_upload_folder_fallback wStore 1 2 11 5 wUploadReq (by decide)⟩

/-- Claim C10 (confirmed).  Every file created by the upload handler is
owned by the requesting principal, and is public exactly when the request's
`isPublic` body field is the exact string "true" — any other value,
including absence, leaves the file private. -/
theorem c10_upload_defaults (s : Store) (uid newId now : Nat) (r : UploadReq) :
    (uploadFile s uid newId now r).2.userId = uid
    ∧ ((uploadFile s uid newId now r).2.isPublic = true ↔ r.isPublicField = some "true") := by
  constructor
  · rfl
  · simp [uploadFile]

/-- After the delete handler removes the records with `f.id`, any lookup
whose predicate forces the id `f.id` misses. -/
theorem find_filter_ne_id {l : List File} {f : File} (p : File → Bool)
    (hid : ∀ g, p g = true → g.id = f.id) :
    (l.filter (fun g => !(g.id == f.id))).find? p = none := by
  apply List.find?_eq_none.mpr
  intro g hg hpg
  have h1 : (!(g.id == f.id)) = true := (List.mem_filter.mp hg).2
  have h2 : g.id = f.id := hid g hpg
  simp [h2] at h1

/-- Claim C3 (confirmed).  When the owner-scoped lookup finds the file,
`DELETE /files/:id` reports success for either filesystem outcome — the
`fs.unlink` failure is caught — and the metadata record is gone, so a
subsequent read or download of that id by any principal reports NotFound. -/
theorem c3_delete_tolerates_blob_failure (s : Store) (uid id : Nat) (b : Bool)
    (h : (s.files.find? (ownedFileWhere uid id)).isSome = true) :
    (deleteFile s uid id b).1 = .success
    ∧ (∀ u : Option Nat, readFile (deleteFile s uid id b).2 u id = .notFound)
    ∧ (∀ u : Option Nat, downloadFile (deleteFile s uid id b).2 u id = .notFound) := by
  rcases Option.isSome_iff_exists.mp h with ⟨f, hf⟩
  have hfid : f.id = id := by
    have hp := List.find?_some hf
    simp [ownedFileWhere] at hp
    exact hp.1
  have hdel : deleteFile s uid id b
      = (.success, { s with files := s.files.filter (fun g => !(g.id == f.id)) }) := by
    simp [deleteFile, hf]
  have hfind : ∀ u : Option Nat,
      (s.files.filter (fun g => !(g.id == f.id))).find? (fileWhere u id) = none := by
    intro u
    apply find_filter_ne_id
    intro g hpg
    simp [fileWhere] at hpg
    rw [hpg.1, hfid]
  refine ⟨by rw [hdel], ?_, ?_⟩
  · intro u
    rw [hdel]
    simp [readFile, hfind u]
  · intro u
    rw [hdel]
    simp [downloadFile, hfind u]

/-- Witness for C3: deleting file 1 as its owner while the blob removal
fails still succeeds, and the file is gone for every kind of reader. -/
theorem c3_delete_tolerates_blob_failure_witness :
    (wStore.files.find? (ownedFileWhere 1 1)).isSome = true
    ∧ (deleteFile wStore 1 1 true).1 = .success
    ∧ readFile (deleteFile wStore 1 1 true).2 (some 1) 1 = .notFound
    ∧ downloadFile (deleteFile wStore 1 1 true).2 none 1 = .notFound := by
  have h := c3_delete_tolerates_blob_failure wStore 1 1 true (by decide)
  exact ⟨by decide, h.1, h.2.1 (some 1), h.2.2 none⟩

/-- Claim C8 (confirmed).  Deleting an owned file twice: the first call
succeeds, the second call's scoped lookup misses and reports NotFound, and
the store after the second call is exactly the store after the first. -/
theorem c8_delete_idempotent (s : Store) (uid id : Nat) (b1 b2 : Bool)
    (h : (s.files.find? (ownedFileWhere uid id)).isSome = true) :
    (deleteFile s uid id b1).1 = .success
    ∧ deleteFile (deleteFile s uid id b1).2 uid id b2
        = (.notFound, (deleteFile s uid id b1).2) := by
  rcases Option.isSome_iff_exists.mp h with ⟨f, hf⟩
  have hfid : f.id = id := by
    have hp := List.find?_some hf
    simp [ownedFileWhere] at hp
    exact hp.1
  have hdel : deleteFile s uid id b1
      = (.success, { s with files := s.files.filter (fun g => !(g.id == f.id)) }) := by
    simp [deleteFile, hf]
  have hfind :
      (s.files.filter (fun g => !(g.id == f.id))).find? (ownedFileWhere uid id) = none := by
    apply find_filter_ne_id
    intro g hpg
    simp [ownedFileWhere] at hpg
    rw [hpg.1, hfid]
  refine ⟨by rw [hdel], ?_⟩
  rw [hdel]
  simp [deleteFile, hfind]

/-- Witness for C8: the double delete of file 1 by its owner. -/
theorem c8_delete_idempotent_witness :
    (wStore.files.find? (ownedFileWhere 1 1)).isSome = true
    ∧ (deleteFile wStore 1 1 false).1 = .success
    ∧ deleteFile (deleteFile wStore 1 1 false).2 1 1 false
        = (.notFound, (deleteFile wStore 1 1 false).2) := by
  have h := c8_delete_idempotent wStore 1 1 false false (by decide)
  exact ⟨by decide, h.1, h.2⟩

/-- Claim C4 (confirmed).  For a file `f` whose id denotes it uniquely in
the store: the owner reads, downloads, deletes and reassigns it regardless
of visibility; an authenticated non-owner reads or downloads it exactly
when it is public, and the non-owner's delete and reassignment answer
NotFound leaving the store unchanged. -/
theorem c4_ownership_policy (s : Store) (f : File) (uid : Nat) (b : Bool) (fid? : Option Nat)
    (hmem : f ∈ s.files)
    (huniq : s.files.all (fun g => g.id != f.id || g == f) = true) :
    readFile s (some f.userId) f.id
      = .info f (sortFoldersByName (s.folders.filter (fun g => g.userId == f.userId))) true
    ∧ downloadFile s (some f.userId) f.id = .download f.path f.originalName
    ∧ (deleteFile s f.userId f.id b).1 = .success
    ∧ (assignFolder s f.userId f.id fid?).1 ≠ .fileNotFound
    ∧ (uid ≠ f.userId →
        ((readFile s (some uid) f.id ≠ .notFound) ↔ f.isPublic = true)
        ∧ ((downloadFile s (some uid) f.id ≠ .notFound) ↔ f.isPublic = true)
        ∧ deleteFile s uid f.id b = (.notFound, s)
        ∧ assignFolder s uid f.id fid? = (.fileNotFound, s)) := by
  have huniq' : ∀ g ∈ s.files, g.id = f.id → g = f := by
    intro g hg hid
    have hb := List.all_eq_true.mp huniq g hg
    simp [hid] at hb
    exact hb
  have hallRead : ∀ u : Option Nat, ∀ g ∈ s.files, fileWhere u f.id g = true → g = f := by
    intro u g hg hp
    apply huniq' g hg
    simp [fileWhere] at hp
    exact hp.1
  have hallOwn : ∀ v : Nat, ∀ g ∈ s.files, ownedFileWhere v f.id g = true → g = f := by
    intro v g hg hp
    apply huniq' g hg
    simp [ownedFileWhere] at hp
    exact hp.1
  have hfindOwnerRead : s.files.find? (fileWhere (some f.userId) f.id) = some f :=
    find_of_mem_of_unique hmem (by simp [fileWhere, userIdFilter]) (hallRead _)
  have hfindOwnerScoped : s.files.find? (ownedFileWhere f.userId f.id) = some f :=
    find_of_mem_of_unique hmem (by simp [ownedFileWhere]) (hallOwn _)
  refine ⟨?_, ?_, ?_, ?_, ?_⟩
  · simp [readFile, hfindOwnerRead]
  · simp [downloadFile, hfindOwnerRead]
  · simp [deleteFile, hfindOwnerScoped]
  · cases fid? with
    | none => simp [assignFolder, hfindOwnerScoped]
    | some fid =>
      cases hcase : s.folders.find? (ownedFolderWhere f.userId fid) with
      | none => simp [assignFolder, hfindOwnerScoped, hcase]
      | some g0 => simp [assignFolder, hfindOwnerScoped, hcase]
  · intro hne
    have hbeq : (f.userId == uid) = false := by
      simp only [beq_eq_false_iff_ne, ne_eq]
      exact fun hh => hne hh.symm
    have hfindRead : s.files.find? (fileWhere (some uid) f.id)
        = if f.isPublic = true then some f else none := by
      rw [find_eq_of_unique hmem (hallRead (some uid))]
      simp [fileWhere, userIdFilter, hbeq]
    have hfindScoped : s.files.find? (ownedFileWhere uid f.id) = none := by
      apply List.find?_eq_none.mpr
      intro g hg hpg
      have hgf := hallOwn uid g hg hpg
      subst hgf
      simp [ownedFileWhere, hbeq] at hpg
    refine ⟨?_, ?_, ?_, ?_⟩
    · cases hpub : f.isPublic with
      | true => simp [readFile, hfindRead, hpub, hbeq]
      | false => simp [readFile, hfindRead, hpub]
    · cases hpub : f.isPublic with
      | true => simp [downloadFile, hfindRead, hpub]
      | false => simp [downloadFile, hfindRead, hpub]
    · simp [deleteFile, hfindScoped]
    · simp [assignFolder, hfindScoped]

/-- Witness for C4: user 1 owns private file 1; user 2 is an authenticated
non-owner who can neither see nor mutate it. -/
theorem c4_ownership_policy_witness :
    wFile1 ∈ wStore.files
    ∧ wStore.files.all (fun g => g.id != wFile1.id || g == wFile1) = true
    ∧ (readFile wStore (some wFile1.userId) wFile1.id
        = .info wFile1
            (sortFoldersByName (wStore.folders.filter (fun g => g.userId == wFile1.userId))) true
      ∧ downloadFile wStore (some wFile1.userId) wFile1.id
          = .download wFile1.path wFile1.originalName
      ∧ (deleteFile wStore wFile1.userId wFile1.id false).1 = .success
      ∧ (assignFolder wStore wFile1.userId wFile1.id (some 5)).1 ≠ .fileNotFound
      ∧ ((2 : Nat) ≠ wFile1.userId →
          ((readFile wStore (some 2) wFile1.id ≠ .notFound) ↔ wFile1.isPublic = true)
          ∧ ((downloadFile wStore (some 2) wFile1.id ≠ .notFound) ↔ wFile1.isPublic = true)
          ∧ deleteFile wStore 2 wFile1.id false = (.notFound, wStore)
          ∧ assignFolder wStore 2 wFile1.id (some 5) = (.fileNotFound, wStore))) :=
  ⟨by decide, by decide,
    c4_ownership_policy wStore wFile1 2 false (some 5) (by decide) (by decide)⟩

/-! ## The folder-ownership invariant (C7) -/

/-- The mutating operations of `src/routes/files.js` on the file table:
upload, folder reassignment, delete.  Folder creation is outside these
routes, so the folder table is fixed by the initial store. -/
inductive Op where
  | upload (uid : Nat) (now : Nat) (r : UploadReq)
  | assign (uid : Nat) (id : Nat) (fid? : Option Nat)
  | remove (uid : Nat) (id : Nat) (unlinkFails : Bool)
deriving Repr, DecidableEq

/-- The store-assigned id for the next created file record: one past the
largest id in use, as an autoincrement column would produce. -/
def nextFileId (s : Store) : Nat :=
  (s.files.map File.id).foldr max 0 + 1

/-- Run one request against the store. -/
def applyOp (s : Store) : Op → Store
  | .upload uid now r => (uploadFile s uid (nextFileId s) now r).1
  | .assign uid id fid? => (assignFolder s uid id fid?).2
  | .remove uid id b => (deleteFile s uid id b).2

/-- Run a request sequence against a store holding an arbitrary folder
population and no files yet. -/
def runOps (folders0 : List Folder) (ops : List Op) : Store :=
  ops.foldl applyOp { files := [], folders := folders0 }

/-- Every member of a list of naturals is bounded by its foldr-max. -/
theorem le_foldr_max {l : List Nat} {x : Nat} (hx : x ∈ l) :
    x ≤ l.foldr max 0 := by
  induction l with
  | nil => cases hx
  | cons a t ih =>
    rcases List.mem_cons.mp hx with h | h
    · subst h
      exact Nat.le_max_left _ _
    · exact Nat.le_trans (ih h) (Nat.le_max_right _ _)

/-- The next file id is fresh. -/
theorem nextFileId_not_mem (s : Store) : nextFileId s ∉ s.files.map File.id := by
  intro hmem
  have h := le_foldr_max hmem
  unfold nextFileId at h
  omega

/-- Updating `folderId` never touches the ids of the file table. -/
theorem updateFolderId_ids (l : List File) (id : Nat) (v : Option Nat) :
    (l.map (fun g => if g.id == id then { g with folderId := v } else g)).map File.id
      = l.map File.id := by
  induction l with
  | nil => rfl
  | cons x t ih =>
    simp only [List.map_cons, ih]
    congr 1
    by_cases hx : (x.id == id) = true
    · simp [hx]
    · simp [hx]

/-- A folder id produced by the upload-path resolver always names a folder
of the requesting user. -/
theorem resolveUploadFolder_ok (s : Store) (uid : Nat) (fid? : Option Nat) (fid : Nat)
    (h : resolveUploadFolder s uid fid? = some fid) :
    s.folders.any (fun g => g.id == fid && g.userId == uid) = true := by
  cases fid? with
  | none => simp [resolveUploadFolder] at h
  | some fid0 =>
    cases hfind : s.folders.find? (ownedFolderWhere uid fid0) with
    | none => simp [resolveUploadFolder, hfind] at h
    | some g0 =>
      have h' : fid0 = fid := by simpa [resolveUploadFolder, hfind] using h
      subst h'
      have hpred : ownedFolderWhere uid fid0 g0 = true := List.find?_some hfind
      refine List.any_eq_true.mpr ⟨g0, List.mem_of_find?_eq_some hfind, ?_⟩
      simpa [ownedFolderWhere] using hpred

/-- Rewriting the `folderId` of the uniquely identified file `f` keeps the
invariant, provided the rewritten record itself satisfies it. -/
theorem updateFolderId_inv (s : Store) (f : File) (v : Option Nat)
    (hinv : storeInv s = true)
    (huniq : ∀ g ∈ s.files, g.id = f.id → g = f)
    (hok : folderOwnedOk s { f with folderId := v } = true) :
    storeInv (updateFolderId s f.id v) = true := by
  apply List.all_eq_true.mpr
  intro g hg
  rcases List.mem_map.mp hg with ⟨g0, hg0mem, hg0eq⟩
  subst hg0eq
  by_cases hid : (g0.id == f.id) = true
  · have hg0f : g0 = f := huniq g0 hg0mem (by simpa using hid)
    subst hg0f
    simp only [hid, if_pos]
    exact hok
  · simp only [Bool.not_eq_true] at hid
    simp only [hid, Bool.false_eq_true, if_false]
    exact List.all_eq_true.mp hinv g0 hg0mem

/-- The upload handler preserves the invariant and id-uniqueness. -/
theorem uploadOp_preserves (s : Store) (uid now : Nat) (r : UploadReq)
    (hinv : storeInv s = true)
    (hnodup : (s.files.map File.id).Nodup) :
    storeInv (uploadFile s uid (nextFileId s) now r).1 = true
    ∧ ((uploadFile s uid (nextFileId s) now r).1.files.map File.id).Nodup := by
  constructor
  · apply List.all_eq_true.mpr
    intro g hg
    have hg' : g ∈ s.files ++ [(uploadFile s uid (nextFileId s) now r).2] := hg
    rcases List.mem_append.mp hg' with hl | hr
    · exact List.all_eq_true.mp hinv g hl
    · have hgf : g = (uploadFile s uid (nextFileId s) now r).2 := by
        simpa using hr
      subst hgf
      show folderOwnedOk _ (uploadFile s uid (nextFileId s) now r).2 = true
      unfold folderOwnedOk
      cases hres : (uploadFile s uid (nextFileId s) now r).2.folderId with
      | none => rfl
      | some fid =>
        have hres' : resolveUploadFolder s uid r.folderIdField = some fid := hres
        exact resolveUploadFolder_ok s uid r.folderIdField fid hres'
  · show ((s.files ++ [(uploadFile s uid (nextFileId s) now r).2]).map File.id).Nodup
    rw [List.map_append]
    apply List.Nodup.append hnodup (by simp)
    intro x hx hy
    have hxid : x = nextFileId s := by
      simpa using hy
    subst hxid
    exact nextFileId_not_mem s hx

/-- The assign-folder handler preserves the invariant and id-uniqueness. -/
theorem assignOp_preserves (s : Store) (uid id : Nat) (fid? : Option Nat)
    (hinv : storeInv s = true)
    (hnodup : (s.files.map File.id).Nodup) :
    storeInv (assignFolder s uid id fid?).2 = true
    ∧ ((assignFolder s uid id fid?).2.files.map File.id).Nodup := by
  cases hfind : s.files.find? (ownedFileWhere uid id) with
  | none =>
    simp only [assignFolder, hfind]
    exact ⟨hinv, hnodup⟩
  | some f =>
    have hfmem : f ∈ s.files := List.mem_of_find?_eq_some hfind
    have hfpred := List.find?_some hfind
    have hfuid : f.userId = uid := by
      simp [ownedFileWhere] at hfpred
      exact hfpred.2
    have huniq : ∀ g ∈ s.files, g.id = f.id → g = f := by
      intro g hg hgid
      exact List.inj_on_of_nodup_map hnodup hg hfmem hgid
    have hids : ∀ v : Option Nat,
        ((updateFolderId s f.id v).files.map File.id).Nodup := by
      intro v
      show ((s.files.map fun g =>
          if g.id == f.id then { g with folderId := v } else g).map File.id).Nodup
      rw [updateFolderId_ids]
      exact hnodup
    cases fid? with
    | none =>
      simp only [assignFolder, hfind]
      refine ⟨updateFolderId_inv s f none hinv huniq ?_, hids none⟩
      unfold folderOwnedOk
      rfl
    | some fid =>
      cases hfold : s.folders.find? (ownedFolderWhere uid fid) with
      | none =>
        simp only [assignFolder, hfind, hfold]
        exact ⟨hinv, hnodup⟩
      | some g0 =>
        simp only [assignFolder, hfind, hfold]
        refine ⟨updateFolderId_inv s f (some fid) hinv huniq ?_, hids (some fid)⟩
        unfold folderOwnedOk
        have hg0 := List.find?_some hfold
        simp [ownedFolderWhere] at hg0
        apply List.any_eq_true.mpr
        refine ⟨g0, List.mem_of_find?_eq_some hfold, ?_⟩
        simp [hg0.1, hg0.2, hfuid]
  
/-- The delete handler preserves the invariant and id-uniqueness. -/
theorem removeOp_preserves (s : Store) (uid id : Nat) (b : Bool)
    (hinv : storeInv s = true)
    (hnodup : (s.files.map File.id).Nodup) :
    storeInv (deleteFile s uid id b).2 = true
    ∧ ((deleteFile s uid id b).2.files.map File.id).Nodup := by
  cases hfind : s.files.find? (ownedFileWhere uid id) with
  | none =>
    simp only [deleteFile, hfind]
    exact ⟨hinv, hnodup⟩
  | some f =>
    simp only [deleteFile, hfind]
    constructor
    · apply List.all_eq_true.mpr
      intro g hg
      have hgmem : g ∈ s.files := List.mem_of_mem_filter hg
      exact List.all_eq_true.mp hinv g hgmem
    · have hsub : List.Sublist
          ((s.files.filter (fun g => !(g.id == f.id))).map File.id)
          (s.files.map File.id) :=
        List.Sublist.map File.id (List.filter_sublist _)
      exact List.Nodup.sublist hsub hnodup

/-- One request of any kind preserves the invariant and id-uniqueness. -/
theorem applyOp_preserves (s : Store) (op : Op)
    (hinv : storeInv s = true)
    (hnodup : (s.files.map File.id).Nodup) :
    storeInv (applyOp s op) = true
    ∧ ((applyOp s op).files.map File.id).Nodup := by
  cases op with
  | upload uid now r => exact uploadOp_preserves s uid now r hinv hnodup
  | assign uid id fid? => exact assignOp_preserves s uid id fid? hinv hnodup
  | remove uid id b => exact removeOp_preserves s uid id b hinv hnodup

/-- Claim C7 (confirmed).  Create and ReassignFolder only ever file a file
into a folder of the same owner: one request on an invariant store with
unique ids keeps the invariant, and from a fileless store with any folder
population, no request sequence reaches a store where some file's
`folderId` names another user's folder. -/
theorem c7_folder_owner_invariant (s : Store) (op : Op)
    (folders0 : List Folder) (ops : List Op)
    (hinv : storeInv s = true)
    (hnodup : (s.files.map File.id).Nodup) :
    storeInv (applyOp s op) = true ∧ storeInv (runOps folders0 ops) = true := by
  refine ⟨(applyOp_preserves s op hinv hnodup).1, ?_⟩
  suffices h : ∀ t : Store, storeInv t = true → (t.files.map File.id).Nodup →
      storeInv (ops.foldl applyOp t) = true by
    exact h { files := [], folders := folders0 } rfl (by simp)
  clear hinv hnodup
  induction ops with
  | nil => exact fun t h1 _ => h1
  | cons o rest ih =>
    intro t h1 h2
    have h := applyOp_preserves t o h1 h2
    exact ih (applyOp t o) h.1 h.2

/-- Witness for C7: the invariant survives an unfiling of file 1 in the
demo store, and a concrete upload/assign/delete sequence starting from a
fileless store with user 2's folder. -/
theorem c7_folder_owner_invariant_witness :
    storeInv wStore = true
    ∧ (wStore.files.map File.id).Nodup
    ∧ (storeInv (applyOp wStore (.assign 1 1 none)) = true
       ∧ storeInv (runOps [wFolder5]
           [.upload 2 12 wUploadReq, .assign 2 1 (some 5), .remove 2 1 false]) = true) :=
  ⟨by decide, by decide,
    c7_folder_owner_invariant wStore (.assign 1 1 none) [wFolder5]
      [.upload 2 12 wUploadReq, .assign 2 1 (some 5), .remove 2 1 false]
      (by decide) (by decide)⟩

/-- Claim C9 (confirmed).  `GET /files/public` returns exactly the public
files and `GET /files` exactly the requester's files — each a permutation
of the corresponding filter of the whole table, so nothing is truncated or
paginated — ordered by upload timestamp descending. -/
theorem c9_list_queries (s : Store) (uid : Nat) :
    (listPublicFiles s).Perm (s.files.filter (fun f => f.isPublic))
    ∧ List.Pairwise (fun a b => b.uploadedAt ≤ a.uploadedAt) (listPublicFiles s)
    ∧ (listOwnedFiles s uid).Perm (s.files.filter (fun f => f.userId == uid))
    ∧ List.Pairwise (fun a b => b.uploadedAt ≤ a.uploadedAt) (listOwnedFiles s uid) := by
  haveI htot : IsTotal File (fun a b => b.uploadedAt ≤ a.uploadedAt) :=
    ⟨fun a b => (Nat.le_total a.uploadedAt b.uploadedAt).symm⟩
  haveI htrans : IsTrans File (fun a b => b.uploadedAt ≤ a.uploadedAt) :=
    ⟨fun _ _ _ hab hbc => Nat.le_trans hbc hab⟩
  refine ⟨?_, ?_, ?_, ?_⟩
  · exact List.perm_insertionSort _ _
  · exact List.sorted_insertionSort _ _
  · exact List.perm_insertionSort _ _
  · exact List.sorted_insertionSort _ _
